import Mathlib

/-!
Verification development for the `write-pypistat` statistics reconciliation
pipeline (`src/writepypistat/pypistat.py`, `src/writepypistat/statdate.py`).

The Python code is shallowly embedded:
* calendar dates (`datetime` restricted to its date part, which is all the
  code ever uses: every `datetime` is built from `%Y-%m-%d` data) become a
  `Date` structure of year/month/day numerals;
* `calendar.monthrange(y, m)[1]` becomes `monthLength`;
* `datetime` ordering and `timedelta` day arithmetic become `dateLe`,
  `nextDay` / `predDay` iteration and the proleptic-Gregorian day ordinal
  `toOrdinal` (Python's `datetime.toordinal`);
* pandas `DataFrame`s of the fixed column layout `date, [package,]
  category, downloads` become lists of `MRow` (non-`downloads` cells in
  column order, `downloads` kept apart as `Option Int`, `none` being `NaN`);
* fallible Python code (`ValueError` / `AssertionError`) returns `Except`.
-/

set_option autoImplicit false
set_option maxRecDepth 10000

namespace WritePypiStat

/-! ## Calendar arithmetic (`calendar.monthrange`, `datetime` day math) -/

/-- Proleptic-Gregorian leap-year test, as used by Python's `calendar`. -/
def isLeap (y : Nat) : Bool :=
  (y % 4 == 0 && y % 100 != 0) || y % 400 == 0

/-- Number of days of month `m` of year `y`; `calendar.monthrange(y, m)[1]`. -/
def monthLength (y m : Nat) : Nat :=
  if m = 2 then (if isLeap y then 29 else 28)
  else if m = 4 ∨ m = 6 ∨ m = 9 ∨ m = 11 then 30
  else 31

/-- A calendar date, the date part of a Python `datetime`. -/
structure Date where
  year : Nat
  month : Nat
  day : Nat
  deriving DecidableEq, Repr

/-- Dates the Python `datetime` constructor accepts (with year ≥ 1). -/
def ValidDate (d : Date) : Prop :=
  1 ≤ d.year ∧ 1 ≤ d.month ∧ d.month ≤ 12 ∧ 1 ≤ d.day ∧ d.day ≤ monthLength d.year d.month

instance (d : Date) : Decidable (ValidDate d) := by
  unfold ValidDate; infer_instance

/-- Days in the months of year `y` that precede month `m` (month numbers
1-12), as in `datetime`'s ordinal computation. -/
def daysBeforeMonth (y : Nat) : Nat → Nat
  | 0 => 0
  | m + 1 => daysBeforeMonth y m + (if m = 0 then 0 else monthLength y m)

/-- Days in the years before year `y` (as in `datetime.toordinal`). -/
def daysBeforeYear (y : Nat) : Nat :=
  365 * (y - 1) + (y - 1) / 4 - (y - 1) / 100 + (y - 1) / 400

/-- Day ordinal of a date: `datetime.toordinal`, with ordinal 1 at 0001-01-01. -/
def toOrdinal (d : Date) : Nat :=
  daysBeforeYear d.year + daysBeforeMonth d.year d.month + d.day

/-- The calendar day after `d`; `d + timedelta(days=1)`. -/
def nextDay (d : Date) : Date :=
  if d.day < monthLength d.year d.month then ⟨d.year, d.month, d.day + 1⟩
  else if d.month < 12 then ⟨d.year, d.month + 1, 1⟩
  else ⟨d.year + 1, 1, 1⟩

/-- The calendar day before `d`; `d - timedelta(days=1)`. -/
def predDay (d : Date) : Date :=
  if 1 < d.day then ⟨d.year, d.month, d.day - 1⟩
  else if 1 < d.month then ⟨d.year, d.month - 1, monthLength d.year (d.month - 1)⟩
  else ⟨d.year - 1, 12, 31⟩

/-- `d - timedelta(days=n)`: iterated `predDay`. -/
def subDays (d : Date) : Nat → Date
  | 0 => d
  | n + 1 => predDay (subDays d n)

/-- Python `datetime` comparison `a <= b` (lexicographic on year, month, day). -/
def dateLe (a b : Date) : Bool :=
  a.year < b.year ∨
    (a.year = b.year ∧ (a.month < b.month ∨ (a.month = b.month ∧ a.day ≤ b.day)))

/-- The `n + 1` consecutive days starting at `s`; the iteration space of
`for i in range((end - start).days + 1): day = start + timedelta(days=i)`. -/
def dateRangeDays (s : Date) : Nat → List Date
  | 0 => [s]
  | n + 1 => s :: dateRangeDays (nextDay s) n

/-- The day list enumerated by the segmenter loops for the range `[s, e]`:
`(e - s).days` is `toOrdinal e - toOrdinal s` in Python's date arithmetic. -/
def segDays (s e : Date) : List Date :=
  dateRangeDays s (toOrdinal e - toOrdinal s)

/-! ## Period segmenters (`_get_pypistat_by_day` / `_by_month` / `_by_year`)

Only the sub-range structure is modelled; fetching/merging per sub-range is
modelled separately (`processPartition`), and the label strings carry no
claim.  Each segmenter's loop state is `(seen, actualStart, emitted)`,
exactly the Python locals `months`/`years`, `actual_start_date`, `stats`. -/

/-- A date sub-range emitted by a segmenter (`stop` is the inclusive end;
Lean reserves the word `end`). -/
structure SubRange where
  start : Date
  stop : Date
  deriving DecidableEq, Repr

/-- Loop of `_get_pypistat_by_month` over the day list, threading the Python
locals `months` and `actual_start_date`; a sub-range is appended to `stats`
whenever `day.month not in months`. -/
def monthLoop (endD : Date) (months : List Nat) (actualStart : Date) :
    List Date → List SubRange
  | [] => []
  | day :: rest =>
    if day.month ∈ months then monthLoop endD months actualStart rest
    else
      let monthEnd : Date := ⟨day.year, day.month, monthLength day.year day.month⟩
      let actualEnd := if dateLe monthEnd endD then monthEnd else endD
      ⟨actualStart, actualEnd⟩ ::
        monthLoop endD (months ++ [day.month]) (nextDay monthEnd) rest

/-- Sub-ranges produced by `WritePypiStat._get_pypistat_by_month`. -/
def getPypistatByMonth (s e : Date) : List SubRange :=
  monthLoop e [] s (segDays s e)

/-- Loop of `_get_pypistat_by_year`, threading `years` and
`actual_start_date`; a sub-range is emitted whenever `day.year not in years`. -/
def yearLoop (endD : Date) (years : List Nat) (actualStart : Date) :
    List Date → List SubRange
  | [] => []
  | day :: rest =>
    if day.year ∈ years then yearLoop endD years actualStart rest
    else
      let yearEnd : Date := ⟨day.year, 12, 31⟩
      let actualEnd := if dateLe yearEnd endD then yearEnd else endD
      ⟨actualStart, actualEnd⟩ ::
        yearLoop endD (years ++ [day.year]) (nextDay yearEnd) rest

/-- Sub-ranges produced by `WritePypiStat._get_pypistat_by_year`. -/
def getPypistatByYear (s e : Date) : List SubRange :=
  yearLoop e [] s (segDays s e)

/-- Sub-ranges produced by `WritePypiStat._get_pypistat_by_day`: one
single-day sub-range per day of the range. -/
def getPypistatByDay (s e : Date) : List SubRange :=
  (segDays s e).map fun d => ⟨d, d⟩

/-! ## Date-string handling (`StatDate.format_start` / `format_end`) -/

/-- Helper for `str.split("-")`: accumulate the current token (reversed),
emit it at each dash. -/
def splitDashAux : List Char → List Char → List String
  | [], acc => [String.mk acc.reverse]
  | c :: cs, acc =>
    if c = '-' then String.mk acc.reverse :: splitDashAux cs []
    else splitDashAux cs (c :: acc)

/-- Python `s.split("-")`. -/
def splitDash (s : String) : List String :=
  splitDashAux s.data []

/-- Decimal digit value of a character, if any. -/
def charDigit (c : Char) : Option Nat :=
  if 48 ≤ c.val.toNat ∧ c.val.toNat ≤ 57 then some (c.val.toNat - 48) else none

/-- Helper for `strToNat`: left-to-right decimal accumulation. -/
def digitsAux : List Char → Nat → Option Nat
  | [], acc => some acc
  | c :: cs, acc =>
    match charDigit c with
    | some d => digitsAux cs (acc * 10 + d)
    | none => none

/-- Python `int(s)` on the non-negative decimal strings this code feeds it
(empty or non-digit input raises `ValueError`, modelled as `none`). -/
def strToNat (s : String) : Option Nat :=
  match s.data with
  | [] => none
  | l => digitsAux l 0

/-- Python `datetime.strptime(s, "%Y-%m-%d")`, reduced to its calendar-date
result: three dash-separated decimal fields forming a valid date
(`datetime` accepts years 1 to 9999). -/
def strptimeYMD (s : String) : Option Date :=
  match splitDash s with
  | [ys, ms, ds] =>
    match strToNat ys, strToNat ms, strToNat ds with
    | some y, some m, some d =>
      if 1 ≤ y ∧ y ≤ 9999 ∧ 1 ≤ m ∧ m ≤ 12 ∧ 1 ≤ d ∧ d ≤ monthLength y m then
        some ⟨y, m, d⟩
      else none
    | _, _, _ => none
  | _ => none

/-- Errors surfaced by `StatDate`: `format s` is the explicit
`ValueError(f"... format is incorrect")` naming the offending string `s`,
`parse s` any other `ValueError` (from `strptime`, `int` or `monthrange`)
on input `s`, and `order` the `AssertionError("start must be before end")`. -/
inductive StatError where
  | format : String → StatError
  | parse : String → StatError
  | order : StatError
  deriving DecidableEq, Repr

deriving instance DecidableEq for Except

/-- Run `strptime` and surface its `ValueError` as `StatError.parse`. -/
def strptimeE (s : String) : Except StatError Date :=
  match strptimeYMD s with
  | some d => .ok d
  | none => .error (.parse s)

/-- String branch of `StatDate.format_start`: a 1-token input is padded with
`"-01-01"`, a 2-token input with `"-01"`, a 3-token input is parsed as is;
any other dash-token count raises `ValueError(f"... format is incorrect")`
naming the offending string. -/
def formatStartStr (s : String) : Except StatError Date :=
  if (splitDash s).length = 1 then strptimeE (s ++ "-01-01")
  else if (splitDash s).length = 2 then strptimeE (s ++ "-01")
  else if (splitDash s).length = 3 then strptimeE s
  else .error (.format s)

/-- String branch of `StatDate.format_end`: a 1-token input is padded with
`"-12-31"`, a 2-token year-month input is completed with
`str(calendar.monthrange(int(y), int(m))[1])`, the last day of that month
(a month outside 1..12 raises `calendar.IllegalMonthError`, a `ValueError`);
a 3-token input is parsed as is; any other token count raises the
`format is incorrect` error naming the offending string. -/
def formatEndStr (s : String) : Except StatError Date :=
  if (splitDash s).length = 1 then strptimeE (s ++ "-12-31")
  else if (splitDash s).length = 2 then
    match strToNat ((splitDash s).getD 0 ""), strToNat ((splitDash s).getD 1 "") with
    | some y, some m =>
      if 1 ≤ m ∧ m ≤ 12 then strptimeE (s ++ "-" ++ Nat.repr (monthLength y m))
      else .error (.parse s)
    | _, _ => .error (.parse s)
  else if (splitDash s).length = 3 then strptimeE s
  else .error (.format s)

/-- `StatDate.format_start`: `None` becomes
`datetime.now() - timedelta(days=181)`.  The code then renders the datetime
with `strftime("%Y-%m-%d")` and reparses it, which round-trips to the same
calendar date, so the model returns the date directly; a `datetime` argument
is likewise rendered and reparsed, i.e. handled as its rendered string. -/
def format_start (now : Date) : Option String → Except StatError Date
  | none => .ok (subDays now 181)
  | some s => formatStartStr s

/-- `StatDate.format_end`: `None` becomes the current date (same
strftime/strptime round-trip note as for `format_start`). -/
def format_end (now : Date) : Option String → Except StatError Date
  | none => .ok now
  | some s => formatEndStr s

/-! ## The `StatDate` record and its invariant -/

/-- The `StatDate` pair of normalized bounds (`end` is a reserved word in
Lean, so that field is named `stop`). -/
structure StatDate where
  start : Date
  stop : Date
  deriving DecidableEq, Repr

/-- `StatDate.__init__`: format both bounds (start first, as in the source),
then `assert self._start <= self._end`. -/
def StatDate.init (now : Date) (start stop : Option String) :
    Except StatError StatDate :=
  match format_start now start with
  | .error e => .error e
  | .ok s =>
    match format_end now stop with
    | .error e => .error e
    | .ok e => if dateLe s e then .ok ⟨s, e⟩ else .error .order

/-- The `start` property setter: reformat, then re-check the order against
the current `end` (the `if self.end and start` guard is always taken: both
operands are `datetime` objects, which are always truthy). -/
def StatDate.setStart (sd : StatDate) (now : Date) (start : Option String) :
    Except StatError StatDate :=
  match format_start now start with
  | .error e => .error e
  | .ok s => if dateLe s sd.stop then .ok ⟨s, sd.stop⟩ else .error .order

/-- The `end` property setter, symmetric to `setStart`. -/
def StatDate.setEnd (sd : StatDate) (now : Date) (stop : Option String) :
    Except StatError StatDate :=
  match format_end now stop with
  | .error e => .error e
  | .ok e => if dateLe sd.start e then .ok ⟨sd.start, e⟩ else .error .order

/-- `StatDate` values reachable through the public interface: produced by
`__init__`, or obtained from a reachable value by a successful setter call. -/
inductive StatDate.Reachable : StatDate → Prop
  | init {now : Date} {start stop : Option String} {sd : StatDate} :
      StatDate.init now start stop = .ok sd → StatDate.Reachable sd
  | setStart {sd : StatDate} {now : Date} {start : Option String} {sd' : StatDate} :
      StatDate.Reachable sd → sd.setStart now start = .ok sd' →
      StatDate.Reachable sd'
  | setEnd {sd : StatDate} {now : Date} {stop : Option String} {sd' : StatDate} :
      StatDate.Reachable sd → sd.setEnd now stop = .ok sd' →
      StatDate.Reachable sd'

/-! ## Day-ordinal lemmas: `predDay` and `subDays` shift `toOrdinal` by one
and by `n`, so `timedelta` day arithmetic is measured correctly. -/

theorem toOrdinal_mk (y m day : Nat) :
    toOrdinal ⟨y, m, day⟩ = daysBeforeYear y + daysBeforeMonth y m + day := rfl

theorem validDate_mk (y m day : Nat) :
    ValidDate ⟨y, m, day⟩ ↔
      1 ≤ y ∧ 1 ≤ m ∧ m ≤ 12 ∧ 1 ≤ day ∧ day ≤ monthLength y m := Iff.rfl

theorem monthLength_ge (y m : Nat) : 28 ≤ monthLength y m := by
  unfold monthLength; split_ifs <;> omega

theorem monthLength_twelve (y : Nat) : monthLength y 12 = 31 := rfl

theorem daysBeforeYear_one : daysBeforeYear 1 = 0 := rfl

theorem daysBeforeMonth_one (y : Nat) : daysBeforeMonth y 1 = 0 := rfl

theorem daysBeforeYear_succ (x : Nat) (hx : 1 ≤ x) :
    daysBeforeYear (x + 1) =
      daysBeforeYear x + (if isLeap x then 366 else 365) := by
  have hiff : (isLeap x = true) ↔ ((x % 4 = 0 ∧ ¬ x % 100 = 0) ∨ x % 400 = 0) := by
    simp [isLeap]
  have h4 : x / 4 = (x - 1) / 4 + (if x % 4 = 0 then 1 else 0) := by
    by_cases c : x % 4 = 0 <;> simp only [c, if_true, if_false] <;> omega
  have h100 : x / 100 = (x - 1) / 100 + (if x % 100 = 0 then 1 else 0) := by
    by_cases c : x % 100 = 0 <;> simp only [c, if_true, if_false] <;> omega
  have h400 : x / 400 = (x - 1) / 400 + (if x % 400 = 0 then 1 else 0) := by
    by_cases c : x % 400 = 0 <;> simp only [c, if_true, if_false] <;> omega
  have hle : (x - 1) / 100 ≤ (x - 1) / 4 :=
    Nat.div_le_div_left (by omega) (by omega)
  unfold daysBeforeYear
  rw [Nat.add_sub_cancel, h4, h100, h400]
  simp only [hiff]
  by_cases c4 : x % 4 = 0 <;> by_cases c100 : x % 100 = 0 <;>
    by_cases c400 : x % 400 = 0 <;>
    simp only [c4, c100, c400, if_pos, if_neg, not_false_eq_true, not_true,
      if_true, if_false, and_true, and_false, true_and, false_and,
      eq_self_iff_true, true_or, or_false, false_or, ite_true, ite_false,
      not_true_eq_false] <;>
    omega

theorem daysBeforeMonth_step (y m : Nat) (h1 : 1 ≤ m) :
    daysBeforeMonth y (m + 1) = daysBeforeMonth y m + monthLength y m := by
  have hm : ¬ m = 0 := by omega
  simp [daysBeforeMonth, hm]

theorem daysBeforeMonth_year (y : Nat) :
    daysBeforeMonth y 12 + monthLength y 12 =
      if isLeap y then 366 else 365 := by
  simp only [daysBeforeMonth, monthLength]
  norm_num
  split_ifs <;> omega

theorem toOrdinal_pos (d : Date) (hv : ValidDate d) : 1 ≤ toOrdinal d := by
  obtain ⟨y, m, day⟩ := d
  obtain ⟨_, _, _, hd, _⟩ := (validDate_mk y m day).mp hv
  rw [toOrdinal_mk]; omega

theorem toOrdinal_predDay (d : Date) (hv : ValidDate d)
    (h2 : 2 ≤ toOrdinal d) :
    toOrdinal (predDay d) = toOrdinal d - 1 ∧ ValidDate (predDay d) := by
  obtain ⟨y, m, day⟩ := d
  obtain ⟨hy, hm1, hm2, hd1, hd2⟩ := (validDate_mk y m day).mp hv
  rw [toOrdinal_mk] at h2
  unfold predDay
  simp only
  split_ifs with hday hmon
  · rw [toOrdinal_mk, toOrdinal_mk, validDate_mk]
    exact ⟨by omega, ⟨hy, hm1, hm2, by omega, by omega⟩⟩
  · have hstep := daysBeforeMonth_step y (m - 1) (by omega)
    have hmeq : m - 1 + 1 = m := by omega
    rw [hmeq] at hstep
    rw [toOrdinal_mk, toOrdinal_mk, validDate_mk]
    refine ⟨by omega, by omega, by omega, by omega, ?_, ?_⟩
    · have := monthLength_ge y (m - 1); omega
    · omega
  · have hmon1 : m = 1 := by omega
    have hday1 : day = 1 := by omega
    subst hmon1 hday1
    rw [daysBeforeMonth_one] at h2
    have hy2 : 2 ≤ y := by
      by_contra hc
      have hy1 : y = 1 := by omega
      rw [hy1, daysBeforeYear_one] at h2
      omega
    have hsucc := daysBeforeYear_succ (y - 1) (by omega)
    have hyeq : y - 1 + 1 = y := by omega
    rw [hyeq] at hsucc
    have hdec := daysBeforeMonth_year (y - 1)
    rw [monthLength_twelve] at hdec
    rw [toOrdinal_mk, toOrdinal_mk, validDate_mk, daysBeforeMonth_one,
      monthLength_twelve]
    exact ⟨by omega, by omega, by omega, by omega, by omega, by omega⟩

theorem toOrdinal_subDays (d : Date) (n : Nat) (hv : ValidDate d)
    (h : n + 1 ≤ toOrdinal d) :
    toOrdinal (subDays d n) = toOrdinal d - n ∧ ValidDate (subDays d n) := by
  induction n with
  | zero => exact ⟨by simp [subDays], hv⟩
  | succ n ih =>
    have ih' := ih (by omega)
    have hord : 2 ≤ toOrdinal (subDays d n) := by omega
    have hp := toOrdinal_predDay (subDays d n) ih'.2 hord
    refine ⟨?_, hp.2⟩
    show toOrdinal (predDay (subDays d n)) = _
    omega

/-! ## Tables: the pandas DataFrames of the reconciliation pipeline

A DataFrame row is `MRow`: the non-`downloads` cells in column order
(`date, [package,] category` — every merge in the code joins on a prefix
of this column order), plus the `downloads` value, an `Option Int` whose
`none` is `NaN`.  A `Value` is a non-`downloads` cell: a string or `NaN`
(`_set_data_frame_columns` coerces these cells to strings; `NaN` reappears
through `replace` and outer-join fills). -/

/-- A non-`downloads` DataFrame cell. -/
inductive Value where
  | str : String → Value
  | nan : Value
  deriving DecidableEq, Repr

/-- A DataFrame row: non-`downloads` cells in column order, and the
`downloads` value (`none` = `NaN`). -/
structure MRow where
  cells : List Value
  downloads : Option Int
  deriving DecidableEq, Repr

/-- `replace("null", np.nan)` then `replace("nan", np.nan)` on one cell. -/
def replaceSentinels (v : Value) : Value :=
  if v = .str "null" ∨ v = .str "nan" then .nan else v

/-- Sentinel normalization of a row, as `_merge_data_frames` performs on
both of its inputs (the numeric `downloads` column has no such strings). -/
def normRow (r : MRow) : MRow :=
  ⟨r.cells.map replaceSentinels, r.downloads⟩

/-- `astype(str)` on one cell: `NaN` renders as the string `"nan"`. -/
def valueToStr (v : Value) : Value :=
  match v with
  | .str s => .str s
  | .nan => .str "nan"

/-- `_set_data_frame_columns`: every non-`downloads` column is coerced to
string and `downloads` to int (already integral wherever the code applies
this, so the `downloads` field is unchanged). -/
def set_data_frame_columns (t : List MRow) : List MRow :=
  t.map fun r => ⟨r.cells.map valueToStr, r.downloads⟩

/-- The net effect of `_merge_data_frames`'s column dance on one output
row's `downloads`: `dataf1`'s value wins, `dataf2`'s fills a missing one
(`merged.downloads.fillna(merged.downloads_x)` after the renames). -/
def fillDownloads (a b : Option Int) : Option Int :=
  match a with
  | some v => some v
  | none => b

/-- Strict lexicographic order on character lists (by code point), the
string comparison underlying `sort_values`. -/
def charListLtB : List Char → List Char → Bool
  | [], [] => false
  | [], _ :: _ => true
  | _ :: _, [] => false
  | a :: as, b :: bs =>
    if a.val.toNat < b.val.toNat then true
    else if b.val.toNat < a.val.toNat then false
    else charListLtB as bs

/-- pandas strict cell order used by `sort_values`: strings in
lexicographic order, `NaN` sorted last (`na_position="last"`). -/
def valueLtB : Value → Value → Bool
  | .str a, .str b => charListLtB a.data b.data
  | .str _, .nan => true
  | .nan, _ => false

/-- Lexicographic (non-strict) order on key tuples (`sort_values([*keys])`). -/
def keyLeB : List Value → List Value → Bool
  | [], _ => true
  | _ :: _, [] => false
  | a :: as, b :: bs =>
    if valueLtB a b then true
    else if valueLtB b a then false
    else keyLeB as bs

/-- Stable sorted insertion. -/
def insertSorted {α : Type} (le : α → α → Bool) (a : α) : List α → List α
  | [] => [a]
  | b :: l => if le a b then a :: b :: l else b :: insertSorted le a l

/-- Stable insertion sort, modelling `DataFrame.sort_values`. -/
def sortByB {α : Type} (le : α → α → Bool) : List α → List α
  | [] => []
  | a :: l => insertSorted le a (sortByB le l)

/-- Boolean sortedness: every adjacent pair is `le`-related. -/
def chainLeB {α : Type} (le : α → α → Bool) : List α → Bool
  | [] => true
  | [_] => true
  | a :: b :: l => le a b && chainLeB le (b :: l)

/-- Row order by the first `nk` cells, the join keys. -/
def rowLeB (nk : Nat) (r1 r2 : MRow) : Bool :=
  keyLeB (r1.cells.take nk) (r2.cells.take nk)

/-- The outer join underlying `pd.merge(how="outer", on=keys)`, with the
`downloads_x`/`downloads_y` renaming and the `fillna` of
`_merge_data_frames` already folded in.  `nk` is the number of key columns
(the code's `keys` lists are always a prefix of the column order);
`restA`/`restB` count each input's remaining non-`downloads` columns, used
to pad `NaN` cells for unmatched rows exactly as the join does.  Matched
pairs produce one row per pair (the pandas cross-product on duplicated
keys); unmatched left rows keep their cells with `NaN` padding on the
right; unmatched right rows are appended with `NaN` padding on the left. -/
def outerJoin (nk restA restB : Nat) (A B : List MRow) : List MRow :=
  (A.map fun a =>
    let ms := B.filter fun b => b.cells.take nk = a.cells.take nk
    if ms.isEmpty then
      [MRow.mk (a.cells ++ List.replicate restB .nan)
        (fillDownloads a.downloads none)]
    else ms.map fun b =>
      MRow.mk (a.cells ++ b.cells.drop nk)
        (fillDownloads a.downloads b.downloads)).flatten
  ++ (B.filter fun b => !(A.any fun a => a.cells.take nk = b.cells.take nk)).map
      fun b =>
        MRow.mk (b.cells.take nk ++ List.replicate restA .nan ++ b.cells.drop nk)
          (fillDownloads none b.downloads)

/-- `WritePypiStat._merge_data_frames(dataf1, dataf2, keys)`: normalize the
`"null"`/`"nan"` sentinels in both inputs, outer-join on the keys with
`dataf1`'s `downloads` winning and `dataf2`'s filling only missing ones,
and resort by the keys. -/
def merge_data_frames (nk restA restB : Nat) (A B : List MRow) : List MRow :=
  sortByB (rowLeB nk) (outerJoin nk restA restB (A.map normRow) (B.map normRow))

/-- `_concat_with_stored_pypistat`: a missing side passes the other side
through unchanged; otherwise merge with the fresh table as `dataf1`.  Both
tables carry exactly the key columns plus `downloads`, so `restA = restB
= 0`. -/
def concat_with_stored_pypistat (nk : Nat) (stat statStored : Option (List MRow)) :
    Option (List MRow) :=
  match stat, statStored with
  | none, s => s
  | some a, none => some a
  | some a, some b => some (merge_data_frames nk 0 0 a b)

/-- First row of `t` whose key prefix is `k`. -/
def findKey (nk : Nat) (t : List MRow) (k : List Value) : Option MRow :=
  t.find? fun r => r.cells.take nk = k

/-- Key-tuples of a table are pairwise distinct. -/
def UniqueKeys (nk : Nat) (t : List MRow) : Prop :=
  (t.map fun r => r.cells.take nk).Nodup

instance (nk : Nat) (t : List MRow) : Decidable (UniqueKeys nk t) := by
  unfold UniqueKeys
  infer_instance

/-- Zero-padded decimal rendering to 2 digits, as `strftime` `%m`/`%d`. -/
def pad2 (n : Nat) : String :=
  if n < 10 then "0" ++ Nat.repr n else Nat.repr n

/-- Zero-padded decimal rendering to 4 digits, as `strftime` `%Y`. -/
def pad4 (n : Nat) : String :=
  if n < 10 then "000" ++ Nat.repr n
  else if n < 100 then "00" ++ Nat.repr n
  else if n < 1000 then "0" ++ Nat.repr n
  else Nat.repr n

/-- `day.strftime("%Y-%m-%d")`. -/
def dateToString (d : Date) : String :=
  pad4 d.year ++ "-" ++ pad2 d.month ++ "-" ++ pad2 d.day

/-- `_get_days(stat_date)`: the rendered day strings of the sub-range
(`n + 1` days from `s`, with `n = (end - start).days`). -/
def get_days (s : Date) (n : Nat) : List String :=
  (dateRangeDays s n).map dateToString

/-- `_concat_with_no_data`: build the placeholder table, one row per day
with `downloads = 0` (`package` only when tagging; the `category` entry is
deleted from the dict when a real table exists).  With a real table, merge
it as `dataf1` with the placeholders on `["date"]` (plus `"package"` when
tagging, so `nk` is 1 or 2); the real table's one remaining non-key
non-`downloads` column is `category` (`restA = 1`), the placeholder table
has none (`restB = 0`).  With no real table, the placeholder table (with
its `NaN` category column) is column-coerced and returned. -/
def concat_with_no_data (writePkg : Bool) (pkg : String)
    (stat : Option (List MRow)) (days : List String) : List MRow :=
  match stat with
  | some t =>
    merge_data_frames (if writePkg then 2 else 1) 1 0 t
      (days.map fun d =>
        MRow.mk (if writePkg then [.str d, .str pkg] else [.str d]) (some 0))
  | none =>
    set_data_frame_columns
      (days.map fun d =>
        MRow.mk ((if writePkg then [.str d, .str pkg] else [.str d]) ++ [.nan])
          (some 0))

/-- Date cell of a row: the first column in every layout the code uses. -/
def rowDate (r : MRow) : Value :=
  r.cells.getD 0 .nan

/-- Helper for `dropDuplicates`: skip rows already seen. -/
def dropDuplicatesAux (seen : List MRow) : List MRow → List MRow
  | [] => []
  | r :: t =>
    if r ∈ seen then dropDuplicatesAux seen t
    else r :: dropDuplicatesAux (r :: seen) t

/-- `drop_duplicates()`: keep the first occurrence of each exact row. -/
def dropDuplicates (t : List MRow) : List MRow :=
  dropDuplicatesAux [] t

/-- `_filter_data_frame_rows`: coerce the columns, drop exact-duplicate
rows, then drop every zero-`downloads` row whose date also carries a row
with `downloads != 0` (in pandas a `NaN` downloads satisfies `!= 0`).
The deduplicated table (the code's reassigned `stat`) is written out twice
instead of `let`-bound, which changes nothing. -/
def filter_data_frame_rows (t : List MRow) : List MRow :=
  (dropDuplicates (set_data_frame_columns t)).filter fun r =>
    !(r.downloads == some 0 &&
      (dropDuplicates (set_data_frame_columns t)).any fun r2 =>
        !(r2.downloads == some 0) && rowDate r2 == rowDate r)

/-- The per-partition table pipeline shared by `_get_pypistat_by_none` and
(per sub-range) the day/month/year variants: fetch result → optional
stored-data merge (keys `date, [package,] category`, so `nk` is 2 or 3) →
optional gap-fill.  `fetched` is the Fetch Adapter outcome (`none` for
"no data"), `stored` the stored partition table (`none` when no file
exists). -/
def processPartition (mergeStored fillND writePkg : Bool) (pkg : String)
    (fetched stored : Option (List MRow)) (days : List String) :
    Option (List MRow) :=
  let stat := fetched
  let stat :=
    if mergeStored then
      concat_with_stored_pypistat (if writePkg then 3 else 2) stat stored
    else stat
  if fillND then some (concat_with_no_data writePkg pkg stat days) else stat

/-- `_write_csv` writes a file iff the table is not `None` and an output
directory is set; the written content is `filter_data_frame_rows stat`. -/
def writeCsvWrites (outdirSet : Bool) (stat : Option (List MRow)) : Bool :=
  stat.isSome && outdirSet

/-! ## Sorting lemmas: membership, sortedness, and stability on sorted input -/

theorem bool_eq_false {b : Bool} (h : ¬ b = true) : b = false := by
  cases b
  · rfl
  · exact absurd rfl h

theorem chainLeB_cons_cons {α : Type} (le : α → α → Bool) (a b : α) (l : List α) :
    chainLeB le (a :: b :: l) = (le a b && chainLeB le (b :: l)) := rfl

theorem chainLeB_tail {α : Type} (le : α → α → Bool) (a : α) (l : List α)
    (h : chainLeB le (a :: l) = true) : chainLeB le l = true := by
  cases l with
  | nil => rfl
  | cons b t =>
    rw [chainLeB_cons_cons] at h
    simp only [Bool.and_eq_true] at h
    exact h.2

theorem chainLeB_head {α : Type} (le : α → α → Bool) (a b : α) (l : List α)
    (h : chainLeB le (a :: b :: l) = true) : le a b = true := by
  rw [chainLeB_cons_cons] at h
  simp only [Bool.and_eq_true] at h
  exact h.1

theorem mem_insertSorted {α : Type} (le : α → α → Bool) (a x : α) (l : List α) :
    x ∈ insertSorted le a l ↔ x = a ∨ x ∈ l := by
  induction l with
  | nil => simp [insertSorted]
  | cons b t ih =>
    unfold insertSorted
    split_ifs with h
    · simp [List.mem_cons]
    · simp only [List.mem_cons, ih]
      tauto

theorem mem_sortByB {α : Type} (le : α → α → Bool) (x : α) (l : List α) :
    x ∈ sortByB le l ↔ x ∈ l := by
  induction l with
  | nil => simp [sortByB]
  | cons a t ih => simp [sortByB, mem_insertSorted, ih, List.mem_cons]

theorem chain_insertSorted {α : Type} (le : α → α → Bool)
    (htot : ∀ p q : α, le p q = false → le q p = true) (a : α) (l : List α)
    (h : chainLeB le l = true) : chainLeB le (insertSorted le a l) = true := by
  induction l with
  | nil => simp [insertSorted, chainLeB]
  | cons b t ih =>
    unfold insertSorted
    split_ifs with hab
    · rw [chainLeB_cons_cons, hab, Bool.true_and]
      exact h
    · have hba : le b a = true := htot a b (bool_eq_false hab)
      cases t with
      | nil => simp [insertSorted, chainLeB, hba]
      | cons c t' =>
        have hbc : le b c = true := chainLeB_head le b c t' h
        have hct : chainLeB le (c :: t') = true := chainLeB_tail le b _ h
        have ih' := ih hct
        show chainLeB le (b :: insertSorted le a (c :: t')) = true
        unfold insertSorted
        split_ifs with hac
        · rw [chainLeB_cons_cons, hba, Bool.true_and, chainLeB_cons_cons, hac,
            Bool.true_and]
          exact hct
        · rw [chainLeB_cons_cons, hbc, Bool.true_and]
          have heq : insertSorted le a (c :: t') = c :: insertSorted le a t' := by
            show (if le a c then a :: c :: t' else c :: insertSorted le a t') =
              c :: insertSorted le a t'
            rw [if_neg hac]
          rw [heq] at ih'
          exact ih'

theorem chain_sortByB {α : Type} (le : α → α → Bool)
    (htot : ∀ p q : α, le p q = false → le q p = true) (l : List α) :
    chainLeB le (sortByB le l) = true := by
  induction l with
  | nil => rfl
  | cons a t ih => exact chain_insertSorted le htot a _ ih

theorem sortByB_eq_of_chain {α : Type} (le : α → α → Bool) (l : List α)
    (h : chainLeB le l = true) : sortByB le l = l := by
  induction l with
  | nil => rfl
  | cons a t ih =>
    show insertSorted le a (sortByB le t) = a :: t
    rw [ih (chainLeB_tail le a t h)]
    cases t with
    | nil => rfl
    | cons b t' =>
      unfold insertSorted
      rw [if_pos (chainLeB_head le a b t' h)]

theorem keyLeB_total (k1 k2 : List Value) (h : keyLeB k1 k2 = false) :
    keyLeB k2 k1 = true := by
  induction k1 generalizing k2 with
  | nil => simp [keyLeB] at h
  | cons a as ih =>
    cases k2 with
    | nil => rfl
    | cons b bs =>
      unfold keyLeB at h ⊢
      by_cases h1 : valueLtB a b = true
      · rw [if_pos h1] at h
        simp at h
      · rw [if_neg h1] at h
        by_cases h2 : valueLtB b a = true
        · rw [if_pos h2]
        · rw [if_neg h2] at h
          rw [if_neg h2, if_neg h1]
          exact ih bs h

theorem rowLeB_total (nk : Nat) (r1 r2 : MRow) (h : rowLeB nk r1 r2 = false) :
    rowLeB nk r2 r1 = true :=
  keyLeB_total _ _ h

/-! ## Outer-join lemmas: shape of the rows, key lookup, coverage -/

theorem fillDownloads_none (x : Option Int) : fillDownloads x none = x := by
  cases x <;> rfl

theorem fillDownloads_self (x : Option Int) : fillDownloads x x = x := by
  cases x <;> rfl

/-- Every row of the outer join is a matched pair, an unmatched left row, or
an unmatched right row. -/
theorem outerJoin_shape (nk rA rB : Nat) (A B : List MRow) (r : MRow)
    (hr : r ∈ outerJoin nk rA rB A B) :
    (∃ a ∈ A, ∃ b ∈ B, b.cells.take nk = a.cells.take nk ∧
        r = MRow.mk (a.cells ++ b.cells.drop nk)
          (fillDownloads a.downloads b.downloads)) ∨
    (∃ a ∈ A, (∀ b ∈ B, ¬ b.cells.take nk = a.cells.take nk) ∧
        r = MRow.mk (a.cells ++ List.replicate rB .nan)
          (fillDownloads a.downloads none)) ∨
    (∃ b ∈ B, (∀ a ∈ A, ¬ a.cells.take nk = b.cells.take nk) ∧
        r = MRow.mk (b.cells.take nk ++ List.replicate rA .nan ++ b.cells.drop nk)
          (fillDownloads none b.downloads)) := by
  unfold outerJoin at hr
  rcases List.mem_append.mp hr with hl | hrr
  · rw [List.mem_flatten] at hl
    obtain ⟨L, hL, hrL⟩ := hl
    rw [List.mem_map] at hL
    obtain ⟨a, ha, rfl⟩ := hL
    by_cases hms : (B.filter fun b => decide (b.cells.take nk = a.cells.take nk)).isEmpty = true
    · rw [if_pos hms] at hrL
      rw [List.mem_singleton] at hrL
      refine Or.inr (Or.inl ⟨a, ha, ?_, hrL⟩)
      intro b hb hk
      rw [List.isEmpty_iff, List.filter_eq_nil_iff] at hms
      exact hms b hb (by simpa using hk)
    · rw [if_neg hms] at hrL
      rw [List.mem_map] at hrL
      obtain ⟨b, hbf, rfl⟩ := hrL
      obtain ⟨hb, hk⟩ := List.mem_filter.mp hbf
      exact Or.inl ⟨a, ha, b, hb, by simpa using hk, rfl⟩
  · rw [List.mem_map] at hrr
    obtain ⟨b, hbf, rfl⟩ := hrr
    obtain ⟨hb, hno⟩ := List.mem_filter.mp hbf
    refine Or.inr (Or.inr ⟨b, hb, ?_, rfl⟩)
    intro a ha hk
    simp only [Bool.not_eq_true', List.any_eq_false, decide_eq_true_eq] at hno
    exact hno a ha hk

/-- Constructor for a matched-pair row of the join. -/
theorem mem_outerJoin_matched (nk rA rB : Nat) (A B : List MRow) (a b : MRow)
    (ha : a ∈ A) (hb : b ∈ B) (hk : b.cells.take nk = a.cells.take nk) :
    MRow.mk (a.cells ++ b.cells.drop nk) (fillDownloads a.downloads b.downloads) ∈
      outerJoin nk rA rB A B := by
  unfold outerJoin
  apply List.mem_append_left
  rw [List.mem_flatten]
  refine ⟨_, List.mem_map_of_mem _ ha, ?_⟩
  have hbf : b ∈ B.filter fun b' => decide (b'.cells.take nk = a.cells.take nk) :=
    List.mem_filter.mpr ⟨hb, by simpa using hk⟩
  rw [if_neg (by simpa [List.isEmpty_iff] using List.ne_nil_of_mem hbf)]
  exact List.mem_map_of_mem _ hbf

/-- Constructor for an unmatched right row of the join. -/
theorem mem_outerJoin_right (nk rA rB : Nat) (A B : List MRow) (b : MRow)
    (hb : b ∈ B) (hno : ∀ a ∈ A, ¬ a.cells.take nk = b.cells.take nk) :
    MRow.mk (b.cells.take nk ++ List.replicate rA .nan ++ b.cells.drop nk)
      (fillDownloads none b.downloads) ∈ outerJoin nk rA rB A B := by
  unfold outerJoin
  apply List.mem_append_right
  apply List.mem_map_of_mem
  apply List.mem_filter.mpr
  refine ⟨hb, ?_⟩
  simp only [Bool.not_eq_true', List.any_eq_false, decide_eq_true_eq]
  exact hno

/-- With pairwise-distinct keys, `find?` on a member's key returns exactly
that member. -/
theorem findKey_eq_some_of_mem (nk : Nat) (T : List MRow) (b : MRow)
    (hU : UniqueKeys nk T) (hb : b ∈ T) :
    findKey nk T (b.cells.take nk) = some b := by
  induction T with
  | nil => cases hb
  | cons r t ih =>
    have hU' : UniqueKeys nk t := (List.nodup_cons.mp hU).2
    have hhead : (r.cells.take nk) ∉ t.map fun x => x.cells.take nk :=
      (List.nodup_cons.mp hU).1
    by_cases hpr : r.cells.take nk = b.cells.take nk
    · unfold findKey
      rw [List.find?_cons_of_pos _ (by simpa using hpr)]
      rcases List.mem_cons.mp hb with rfl | hbt
      · rfl
      · exact absurd (hpr ▸ List.mem_map_of_mem (fun x => x.cells.take nk) hbt)
          hhead
    · have hbt : b ∈ t := by
        rcases List.mem_cons.mp hb with rfl | h
        · exact absurd rfl hpr
        · exact h
      unfold findKey
      rw [List.find?_cons_of_neg _ (by simpa using hpr)]
      exact ih hU' hbt

/-- `find?` misses a key iff no row carries it. -/
theorem findKey_eq_none_iff (nk : Nat) (T : List MRow) (k : List Value) :
    findKey nk T k = none ↔ ∀ r ∈ T, ¬ r.cells.take nk = k := by
  unfold findKey
  rw [List.find?_eq_none]
  simp

/-- With pairwise-distinct keys, filtering a member's key keeps exactly it. -/
theorem filter_key_eq_singleton (nk : Nat) (T : List MRow) (b : MRow)
    (k : List Value) (hU : UniqueKeys nk T) (hb : b ∈ T)
    (hk : b.cells.take nk = k) :
    T.filter (fun r => decide (r.cells.take nk = k)) = [b] := by
  induction T with
  | nil => cases hb
  | cons r t ih =>
    have hU' : UniqueKeys nk t := (List.nodup_cons.mp hU).2
    have hhead : (r.cells.take nk) ∉ t.map fun x => x.cells.take nk :=
      (List.nodup_cons.mp hU).1
    by_cases hpr : r.cells.take nk = k
    · have hrb : r = b := by
        rcases List.mem_cons.mp hb with rfl | hbt
        · rfl
        · exfalso
          apply hhead
          rw [hpr, ← hk]
          exact List.mem_map_of_mem (fun x => x.cells.take nk) hbt
      subst hrb
      rw [List.filter_cons_of_pos (by simpa using hpr)]
      have hnil : t.filter (fun r2 => decide (r2.cells.take nk = k)) = [] := by
        rw [List.filter_eq_nil_iff]
        intro x hx
        simp only [decide_eq_true_eq]
        intro hxk
        apply hhead
        rw [hpr, ← hxk]
        exact List.mem_map_of_mem (fun y => y.cells.take nk) hx
      rw [hnil]
    · have hbt : b ∈ t := by
        rcases List.mem_cons.mp hb with rfl | h
        · exact absurd hk hpr
        · exact h
      rw [List.filter_cons_of_neg (by simpa using hpr)]
      exact ih hU' hbt

/-! ## Merge lemmas: the downloads of every merged row, key coverage, and
stability of already-normalized rows -/

theorem map_id_of_mem {α : Type} (f : α → α) (l : List α)
    (h : ∀ x ∈ l, f x = x) : l.map f = l := by
  induction l with
  | nil => rfl
  | cons a t ih =>
    rw [List.map_cons, h a (by simp), ih fun x hx => h x (by simp [hx])]

theorem flatten_map_singleton {α : Type} (l : List α) :
    (l.map fun x => [x]).flatten = l := by
  induction l with
  | nil => rfl
  | cons a t ih => simp [ih]

/-- In every row of the outer join, `dataf1`'s downloads value wins and
`dataf2`'s fills only a missing one, measured through key lookup in the
two inputs. -/
theorem outerJoin_downloads (nk rA rB : Nat) (A B : List MRow)
    (hUA : UniqueKeys nk A) (hUB : UniqueKeys nk B)
    (hwA : ∀ a ∈ A, nk ≤ a.cells.length)
    (hwB : ∀ b ∈ B, nk ≤ b.cells.length) :
    ∀ r ∈ outerJoin nk rA rB A B,
      r.downloads = fillDownloads
        ((findKey nk A (r.cells.take nk)).bind MRow.downloads)
        ((findKey nk B (r.cells.take nk)).bind MRow.downloads) := by
  intro r hr
  rcases outerJoin_shape nk rA rB A B r hr with
    ⟨a, ha, b, hb, hk, rfl⟩ | ⟨a, ha, hno, rfl⟩ | ⟨b, hb, hno, rfl⟩
  · show fillDownloads a.downloads b.downloads = fillDownloads
      ((findKey nk A ((a.cells ++ b.cells.drop nk).take nk)).bind MRow.downloads)
      ((findKey nk B ((a.cells ++ b.cells.drop nk).take nk)).bind MRow.downloads)
    rw [List.take_append_of_le_length (hwA a ha)]
    rw [findKey_eq_some_of_mem nk A a hUA ha]
    rw [← hk, findKey_eq_some_of_mem nk B b hUB hb]
    rfl
  · show fillDownloads a.downloads none = fillDownloads
      ((findKey nk A ((a.cells ++ List.replicate rB Value.nan).take nk)).bind MRow.downloads)
      ((findKey nk B ((a.cells ++ List.replicate rB Value.nan).take nk)).bind MRow.downloads)
    rw [List.take_append_of_le_length (hwA a ha)]
    rw [findKey_eq_some_of_mem nk A a hUA ha]
    rw [(findKey_eq_none_iff nk B _).mpr hno]
    rfl
  · have hlen : nk ≤ (b.cells.take nk).length := by
      rw [List.length_take]
      have := hwB b hb
      omega
    show fillDownloads none b.downloads = fillDownloads
      ((findKey nk A (((b.cells.take nk ++ List.replicate rA Value.nan) ++
        b.cells.drop nk).take nk)).bind MRow.downloads)
      ((findKey nk B (((b.cells.take nk ++ List.replicate rA Value.nan) ++
        b.cells.drop nk).take nk)).bind MRow.downloads)
    rw [List.take_append_of_le_length (by rw [List.length_append]; omega),
      List.take_append_of_le_length hlen, List.take_take, Nat.min_self]
    rw [(findKey_eq_none_iff nk A _).mpr hno]
    rw [findKey_eq_some_of_mem nk B b hUB hb]
    rfl

theorem normRow_length (r : MRow) : (normRow r).cells.length = r.cells.length := by
  simp [normRow]

/-- `_merge_data_frames` rowwise: `dataf1`'s downloads win, `dataf2` fills
missing ones (stated through lookup in the sentinel-normalized inputs). -/
theorem merge_downloads (nk rA rB : Nat) (A B : List MRow)
    (hUA : UniqueKeys nk (A.map normRow)) (hUB : UniqueKeys nk (B.map normRow))
    (hwA : ∀ a ∈ A, nk ≤ a.cells.length)
    (hwB : ∀ b ∈ B, nk ≤ b.cells.length) :
    ∀ r ∈ merge_data_frames nk rA rB A B,
      r.downloads = fillDownloads
        ((findKey nk (A.map normRow) (r.cells.take nk)).bind MRow.downloads)
        ((findKey nk (B.map normRow) (r.cells.take nk)).bind MRow.downloads) := by
  intro r hr
  unfold merge_data_frames at hr
  rw [mem_sortByB] at hr
  refine outerJoin_downloads nk rA rB _ _ hUA hUB ?_ ?_ r hr
  · intro a' ha'
    obtain ⟨a, ha, rfl⟩ := List.mem_map.mp ha'
    rw [normRow_length]
    exact hwA a ha
  · intro b' hb'
    obtain ⟨b, hb, rfl⟩ := List.mem_map.mp hb'
    rw [normRow_length]
    exact hwB b hb

/-- Every right-table key occurs among the keys of the outer join. -/
theorem outerJoin_covers_right (nk rA rB : Nat) (A B : List MRow) (b : MRow)
    (hb : b ∈ B) (hwA : ∀ a ∈ A, nk ≤ a.cells.length)
    (hwB : nk ≤ b.cells.length) :
    ∃ m ∈ outerJoin nk rA rB A B, m.cells.take nk = b.cells.take nk := by
  by_cases hex : ∃ a ∈ A, a.cells.take nk = b.cells.take nk
  · obtain ⟨a, ha, hk⟩ := hex
    refine ⟨_, mem_outerJoin_matched nk rA rB A B a b ha hb hk.symm, ?_⟩
    show (a.cells ++ b.cells.drop nk).take nk = _
    rw [List.take_append_of_le_length (hwA a ha), hk]
  · push_neg at hex
    refine ⟨_, mem_outerJoin_right nk rA rB A B b hb hex, ?_⟩
    have hlen : nk ≤ (b.cells.take nk).length := by
      rw [List.length_take]; omega
    show ((b.cells.take nk ++ List.replicate rA Value.nan) ++ b.cells.drop nk).take nk = _
    rw [List.take_append_of_le_length (by rw [List.length_append]; omega),
      List.take_append_of_le_length hlen, List.take_take, Nat.min_self]

theorem replaceSentinels_idem (v : Value) :
    replaceSentinels (replaceSentinels v) = replaceSentinels v := by
  unfold replaceSentinels
  by_cases h : v = Value.str "null" ∨ v = Value.str "nan"
  · simp [h]
  · simp [h]

theorem normRow_cells_fixed (r0 : MRow) :
    ∀ c ∈ (normRow r0).cells, replaceSentinels c = c := by
  intro c hc
  simp only [normRow, List.mem_map] at hc
  obtain ⟨c0, _, rfl⟩ := hc
  exact replaceSentinels_idem c0

/-- Rows of a join of normalized tables are themselves normalized. -/
theorem outerJoin_norm_fixed (nk rA rB : Nat) (A B : List MRow) :
    ∀ r ∈ outerJoin nk rA rB (A.map normRow) (B.map normRow), normRow r = r := by
  intro r hr
  have hcell : ∀ c ∈ r.cells, replaceSentinels c = c := by
    rcases outerJoin_shape nk rA rB _ _ r hr with
      ⟨a, ha, b, hb, hk, rfl⟩ | ⟨a, ha, hno, rfl⟩ | ⟨b, hb, hno, rfl⟩
    · intro c hc
      rcases List.mem_append.mp hc with h | h
      · obtain ⟨a0, _, rfl⟩ := List.mem_map.mp ha
        exact normRow_cells_fixed a0 c h
      · obtain ⟨b0, _, rfl⟩ := List.mem_map.mp hb
        exact normRow_cells_fixed b0 c (List.mem_of_mem_drop h)
    · intro c hc
      rcases List.mem_append.mp hc with h | h
      · obtain ⟨a0, _, rfl⟩ := List.mem_map.mp ha
        exact normRow_cells_fixed a0 c h
      · rw [List.eq_of_mem_replicate h]
        rfl
    · intro c hc
      rcases List.mem_append.mp hc with h | h
      · rcases List.mem_append.mp h with h2 | h2
        · obtain ⟨b0, _, rfl⟩ := List.mem_map.mp hb
          exact normRow_cells_fixed b0 c (List.mem_of_mem_take h2)
        · rw [List.eq_of_mem_replicate h2]
          rfl
      · obtain ⟨b0, _, rfl⟩ := List.mem_map.mp hb
        exact normRow_cells_fixed b0 c (List.mem_of_mem_drop h)
  show normRow r = r
  unfold normRow
  rw [map_id_of_mem _ _ hcell]

/-- A table whose keys all occur in `M`, whose rows are key-only, and whose
downloads never override `M`'s, joins with `M` to give back exactly `M`. -/
theorem outerJoin_self (nk rA : Nat) (M B2 : List MRow)
    (hUB : UniqueKeys nk B2)
    (hwB : ∀ b ∈ B2, b.cells.length = nk)
    (hcov : ∀ b ∈ B2, ∃ m ∈ M, m.cells.take nk = b.cells.take nk)
    (hfill : ∀ m ∈ M, ∀ b ∈ B2, b.cells.take nk = m.cells.take nk →
      fillDownloads m.downloads b.downloads = m.downloads) :
    outerJoin nk rA 0 M B2 = M := by
  unfold outerJoin
  have hBpart : (B2.filter fun b =>
      !(M.any fun m => decide (m.cells.take nk = b.cells.take nk))) = [] := by
    rw [List.filter_eq_nil_iff]
    intro b hb
    obtain ⟨m, hm, hk⟩ := hcov b hb
    simp only [Bool.not_eq_true', List.any_eq_false, decide_eq_true_eq, not_forall]
    push_neg
    exact ⟨m, hm, hk⟩
  rw [hBpart, List.map_nil, List.append_nil]
  have hrows : ∀ m ∈ M,
      (if (B2.filter fun b => decide (b.cells.take nk = m.cells.take nk)).isEmpty then
        [MRow.mk (m.cells ++ List.replicate 0 .nan) (fillDownloads m.downloads none)]
      else (B2.filter fun b => decide (b.cells.take nk = m.cells.take nk)).map
        fun b => MRow.mk (m.cells ++ b.cells.drop nk)
          (fillDownloads m.downloads b.downloads)) = [m] := by
    intro m hm
    by_cases hex : ∃ b ∈ B2, b.cells.take nk = m.cells.take nk
    · obtain ⟨b, hb, hk⟩ := hex
      rw [filter_key_eq_singleton nk B2 b (m.cells.take nk) hUB hb hk]
      rw [if_neg (by simp)]
      rw [List.map_singleton]
      rw [List.drop_eq_nil_of_le (le_of_eq (hwB b hb)), List.append_nil]
      rw [hfill m hm b hb hk]
    · have hnil : (B2.filter fun b => decide (b.cells.take nk = m.cells.take nk)) = [] := by
        rw [List.filter_eq_nil_iff]
        intro b hb
        simp only [decide_eq_true_eq]
        exact fun hk => hex ⟨b, hb, hk⟩
      rw [hnil, if_pos (show ([] : List MRow).isEmpty = true from rfl)]
      rw [show List.replicate 0 (Value.nan) = ([] : List Value) from rfl,
        List.append_nil, fillDownloads_none]
  calc (M.map fun m =>
      (if (B2.filter fun b => decide (b.cells.take nk = m.cells.take nk)).isEmpty then
        [MRow.mk (m.cells ++ List.replicate 0 .nan) (fillDownloads m.downloads none)]
      else (B2.filter fun b => decide (b.cells.take nk = m.cells.take nk)).map
        fun b => MRow.mk (m.cells ++ b.cells.drop nk)
          (fillDownloads m.downloads b.downloads))).flatten
      = (M.map fun m => [m]).flatten := by
        rw [List.map_congr_left hrows]
    _ = M := flatten_map_singleton M

/-! ## Claim C1 (month/year/day segmentation) -/

/-- C1: the claimed segmenter property fails in `_get_pypistat_by_month`:
its `months` list tracks bare month numbers (`day.month not in months`), so
for the range 2021-01-15 .. 2022-01-10, which touches 13 calendar months,
the recurring month number 1 of 2022-01 is never emitted.  Only 12
sub-ranges are produced and the in-range day 2022-01-05 lies in none of
them, so the union of the sub-ranges is not the input range.  The year
segmenter, whose `years` list cannot repeat, conforms on the
specification's own example 2021-11-15 .. 2022-02-10. -/
theorem month_segmenter_misses_repeated_month_number :
    (dateLe ⟨2021, 1, 15⟩ ⟨2022, 1, 5⟩ && dateLe ⟨2022, 1, 5⟩ ⟨2022, 1, 10⟩) = true ∧
    ((getPypistatByMonth ⟨2021, 1, 15⟩ ⟨2022, 1, 10⟩).all fun sr =>
      !(dateLe sr.start ⟨2022, 1, 5⟩ && dateLe ⟨2022, 1, 5⟩ sr.stop)) = true ∧
    (getPypistatByMonth ⟨2021, 1, 15⟩ ⟨2022, 1, 10⟩).length = 12 ∧
    getPypistatByYear ⟨2021, 11, 15⟩ ⟨2022, 2, 10⟩ =
      [⟨⟨2021, 11, 15⟩, ⟨2021, 12, 31⟩⟩, ⟨⟨2022, 1, 1⟩, ⟨2022, 2, 10⟩⟩] :=
  ⟨by decide, by decide, by decide, by decide⟩

/-! ## Claim C4 (defaults for absent bounds) -/

/-- C4 counterexample: with `now = 2022-12-31`, `format_start(None)` returns
2022-07-03, which is 181 days before `now`, not 180 (`format_start`
subtracts `timedelta(days=181)`). -/
theorem format_start_none_not_180_days :
    format_start ⟨2022, 12, 31⟩ none = .ok ⟨2022, 7, 3⟩ ∧
    ¬ toOrdinal ⟨2022, 12, 31⟩ - toOrdinal ⟨2022, 7, 3⟩ = 180 :=
  ⟨by decide, by decide⟩

/-- C4 as amended: `format_start(None)` returns the date exactly 181 days
before `now`, and `format_end(None)` returns the current date. -/
theorem format_start_none_is_181_days_before (now : Date) (hv : ValidDate now)
    (h : 182 ≤ toOrdinal now) :
    format_start now none = .ok (subDays now 181) ∧
    toOrdinal now - toOrdinal (subDays now 181) = 181 ∧
    ValidDate (subDays now 181) ∧
    format_end now none = .ok now := by
  have hs := toOrdinal_subDays now 181 hv (by omega)
  exact ⟨rfl, by omega, hs.2, rfl⟩

/-- C4 witness: the amended theorem instantiated at `now = 2022-12-31`. -/
theorem format_start_none_is_181_days_before_witness :
    format_start ⟨2022, 12, 31⟩ none = .ok (subDays ⟨2022, 12, 31⟩ 181) ∧
    toOrdinal ⟨2022, 12, 31⟩ - toOrdinal (subDays ⟨2022, 12, 31⟩ 181) = 181 ∧
    ValidDate (subDays ⟨2022, 12, 31⟩ 181) ∧
    format_end ⟨2022, 12, 31⟩ none = .ok ⟨2022, 12, 31⟩ :=
  format_start_none_is_181_days_before ⟨2022, 12, 31⟩ (by decide) (by decide)

/-! ## Claim C5 (the start ≤ end invariant) -/

/-- C5: every `StatDate` reachable through the public interface satisfies
`start <= end`; constructing a `StatDate` whose normalized start is after
its normalized end fails with the order error, and each setter re-runs the
check and fails the same way whenever the new value would violate the order
against the other bound. -/
theorem statDate_start_le_end_invariant :
    (∀ sd : StatDate, StatDate.Reachable sd → dateLe sd.start sd.stop = true) ∧
    (∀ (now : Date) (s e : Option String) (ds de : Date),
      format_start now s = .ok ds → format_end now e = .ok de →
      dateLe ds de = false → StatDate.init now s e = .error .order) ∧
    (∀ (sd : StatDate) (now : Date) (s : Option String) (ds : Date),
      format_start now s = .ok ds → dateLe ds sd.stop = false →
      sd.setStart now s = .error .order) ∧
    (∀ (sd : StatDate) (now : Date) (e : Option String) (de : Date),
      format_end now e = .ok de → dateLe sd.start de = false →
      sd.setEnd now e = .error .order) := by
  refine ⟨?_, ?_, ?_, ?_⟩
  · intro sd hr
    induction hr with
    | init h =>
      unfold StatDate.init at h
      split at h
      · simp at h
      · split at h
        · simp at h
        · split at h
          · cases h
            rename_i hle
            exact hle
          · simp at h
    | setStart hr h ih =>
      unfold StatDate.setStart at h
      split at h
      · simp at h
      · split at h
        · cases h
          rename_i hle
          exact hle
        · simp at h
    | setEnd hr h ih =>
      unfold StatDate.setEnd at h
      split at h
      · simp at h
      · split at h
        · cases h
          rename_i hle
          exact hle
        · simp at h
  · intro now s e ds de hfs hfe hlt
    simp [StatDate.init, hfs, hfe, hlt]
  · intro sd now s ds hfs hlt
    simp [StatDate.setStart, hfs, hlt]
  · intro sd now e de hfe hlt
    simp [StatDate.setEnd, hfe, hlt]

/-- C5 witness: a concrete reachable `StatDate` satisfies the invariant, and
a concrete out-of-order construction fails with the order error. -/
theorem statDate_start_le_end_invariant_witness :
    dateLe (StatDate.mk ⟨2022, 1, 1⟩ ⟨2022, 12, 31⟩).start
      (StatDate.mk ⟨2022, 1, 1⟩ ⟨2022, 12, 31⟩).stop = true ∧
    StatDate.init ⟨2023, 5, 1⟩ (some "2023") (some "2022") = .error .order :=
  ⟨statDate_start_le_end_invariant.1 _
      (@StatDate.Reachable.init ⟨2023, 5, 1⟩ (some "2022") (some "2022") _
        (by decide)),
    statDate_start_le_end_invariant.2.1 ⟨2023, 5, 1⟩ (some "2023") (some "2022")
      ⟨2023, 1, 1⟩ ⟨2022, 12, 31⟩ (by decide) (by decide) (by decide)⟩

/-! ## Claim C8 (partial date-input expansion) -/

/-- C8: date normalization expands partial inputs by the calendar: a bare
year to Jan 1 (start) or Dec 31 (end), a year-month to the 1st (start) or
the last day of that month (end, leap years handled: 2022-02 gives the
28th, 2020-02 the 29th); a full date string is parsed as given; and any
other dash-token count fails with the `format is incorrect` error naming
the offending string. -/
theorem date_normalization_expands_partial_inputs :
    formatStartStr "2022" = .ok ⟨2022, 1, 1⟩ ∧
    formatEndStr "2022" = .ok ⟨2022, 12, 31⟩ ∧
    formatStartStr "2022-02" = .ok ⟨2022, 2, 1⟩ ∧
    formatEndStr "2022-02" = .ok ⟨2022, 2, 28⟩ ∧
    formatEndStr "2020-02" = .ok ⟨2020, 2, 29⟩ ∧
    (∀ s : String, (splitDash s).length = 3 → formatStartStr s = strptimeE s) ∧
    (∀ s : String, (splitDash s).length = 3 → formatEndStr s = strptimeE s) ∧
    (∀ s : String, ¬ (splitDash s).length = 1 → ¬ (splitDash s).length = 2 →
      ¬ (splitDash s).length = 3 →
      formatStartStr s = .error (.format s) ∧
      formatEndStr s = .error (.format s)) := by
  refine ⟨by decide, by decide, by decide, by decide, by decide, ?_, ?_, ?_⟩
  · intro s h3
    have h1 : ¬ (splitDash s).length = 1 := by omega
    have h2 : ¬ (splitDash s).length = 2 := by omega
    simp [formatStartStr, h1, h2, h3]
  · intro s h3
    have h1 : ¬ (splitDash s).length = 1 := by omega
    have h2 : ¬ (splitDash s).length = 2 := by omega
    simp [formatEndStr, h1, h2, h3]
  · intro s h1 h2 h3
    constructor
    · simp [formatStartStr, h1, h2, h3]
    · simp [formatEndStr, h1, h2, h3]

/-- C8 witness: the pass-through and token-count-error clauses instantiated
at concrete strings. -/
theorem date_normalization_expands_partial_inputs_witness :
    formatStartStr "2022-01-02" = strptimeE "2022-01-02" ∧
    formatStartStr "2022-1-2-3" = .error (.format "2022-1-2-3") :=
  ⟨date_normalization_expands_partial_inputs.2.2.2.2.2.1 "2022-01-02" (by decide),
    (date_normalization_expands_partial_inputs.2.2.2.2.2.2.2 "2022-1-2-3"
      (by decide) (by decide) (by decide)).1⟩

/-! ## Claim C2 (the merge primitive and stored-data reconciliation) -/

/-- C2: `_merge_data_frames(dataf1, dataf2, keys)` normalizes the textual
`"null"`/`"nan"` sentinels of both inputs to `NaN` and outer-joins on the
keys; on every key, `dataf1`'s `downloads` value wins and `dataf2`'s fills
only a missing one (first conjunct, through key lookup in the two
normalized inputs), and the result is resorted by the keys (second
conjunct).  `_concat_with_stored_pypistat` passes the freshly fetched
table as `dataf1` and the stored table as `dataf2` (third conjunct), so
the fresh `downloads` value takes precedence on every conflicting key.
Hypotheses: keys are pairwise distinct within each normalized input and
every row has at least the key columns — as holds for the frames the
pipeline builds. -/
theorem merge_outer_join_fresh_wins (nk rA rB : Nat) (A B : List MRow)
    (hUA : UniqueKeys nk (A.map normRow)) (hUB : UniqueKeys nk (B.map normRow))
    (hwA : ∀ a ∈ A, nk ≤ a.cells.length)
    (hwB : ∀ b ∈ B, nk ≤ b.cells.length) :
    (∀ r ∈ merge_data_frames nk rA rB A B,
      r.downloads = fillDownloads
        ((findKey nk (A.map normRow) (r.cells.take nk)).bind MRow.downloads)
        ((findKey nk (B.map normRow) (r.cells.take nk)).bind MRow.downloads)) ∧
    chainLeB (rowLeB nk) (merge_data_frames nk rA rB A B) = true ∧
    concat_with_stored_pypistat nk (some A) (some B) =
      some (merge_data_frames nk 0 0 A B) := by
  refine ⟨merge_downloads nk rA rB A B hUA hUB hwA hwB, ?_, rfl⟩
  show chainLeB (rowLeB nk) (sortByB (rowLeB nk) _) = true
  exact chain_sortByB (rowLeB nk) (fun p q => rowLeB_total nk p q) _

/-- C2 witness: the specification's end-to-end scenario — stored row
`2022-01-01,,5`, fresh row `2022-01-01,,7` (empty category read back as
the textual `"nan"`), keys `[date, category]` — merges to `2022-01-01,,7`:
the fresh value wins and the sentinel became `NaN`. -/
theorem merge_outer_join_fresh_wins_witness :
    (∀ r ∈ merge_data_frames 2 0 0
        [MRow.mk [Value.str "2022-01-01", Value.str "nan"] (some 7)]
        [MRow.mk [Value.str "2022-01-01", Value.str "nan"] (some 5)],
      r.downloads = fillDownloads
        ((findKey 2 ([MRow.mk [Value.str "2022-01-01", Value.str "nan"]
            (some 7)].map normRow) (r.cells.take 2)).bind MRow.downloads)
        ((findKey 2 ([MRow.mk [Value.str "2022-01-01", Value.str "nan"]
            (some 5)].map normRow) (r.cells.take 2)).bind MRow.downloads)) ∧
    merge_data_frames 2 0 0
        [MRow.mk [Value.str "2022-01-01", Value.str "nan"] (some 7)]
        [MRow.mk [Value.str "2022-01-01", Value.str "nan"] (some 5)] =
      [MRow.mk [Value.str "2022-01-01", Value.nan] (some 7)] := by
  constructor
  · exact (merge_outer_join_fresh_wins 2 0 0
      [MRow.mk [Value.str "2022-01-01", Value.str "nan"] (some 7)]
      [MRow.mk [Value.str "2022-01-01", Value.str "nan"] (some 5)]
      (by decide) (by decide) (by decide) (by decide)).1
  · decide

/-! ## Claim C10 (idempotence of the merge under domination) -/

/-- C10: when `dataf1` already dominates `dataf2` on every shared key (a
present `downloads` value wherever the normalized keys collide), merging
the merge result with `dataf2` again changes nothing:
`merge(merge(A,B,k), B, k) = merge(A,B,k)`.  Hypotheses: pairwise-distinct
keys in each normalized input, and `dataf2` carries exactly the key
columns plus `downloads` (`restB = 0`), as the stored and placeholder
tables the pipeline passes as `dataf2` do (with extra non-key columns in
`dataf2` the pandas re-merge would not even preserve the column set). -/
theorem merge_idempotent_when_dominant (nk rA : Nat) (A B : List MRow)
    (hUA : UniqueKeys nk (A.map normRow)) (hUB : UniqueKeys nk (B.map normRow))
    (hwA : ∀ a ∈ A, nk ≤ a.cells.length)
    (hwB : ∀ b ∈ B, b.cells.length = nk)
    (hdom : ∀ a ∈ A.map normRow, ∀ b ∈ B.map normRow,
      a.cells.take nk = b.cells.take nk → ¬ a.downloads = none) :
    merge_data_frames nk rA 0 (merge_data_frames nk rA 0 A B) B =
      merge_data_frames nk rA 0 A B := by
  have hwBle : ∀ b ∈ B, nk ≤ b.cells.length := fun b hb => le_of_eq (hwB b hb).symm
  have hwB2 : ∀ b ∈ B.map normRow, b.cells.length = nk := by
    intro b' hb'
    obtain ⟨b, hb, rfl⟩ := List.mem_map.mp hb'
    rw [normRow_length]
    exact hwB b hb
  have hwA2 : ∀ a ∈ A.map normRow, nk ≤ a.cells.length := by
    intro a' ha'
    obtain ⟨a, ha, rfl⟩ := List.mem_map.mp ha'
    rw [normRow_length]
    exact hwA a ha
  have hMfix : ∀ r ∈ merge_data_frames nk rA 0 A B, normRow r = r := by
    intro r hr
    unfold merge_data_frames at hr
    rw [mem_sortByB] at hr
    exact outerJoin_norm_fixed nk rA 0 A B r hr
  have hMmap : (merge_data_frames nk rA 0 A B).map normRow =
      merge_data_frames nk rA 0 A B := map_id_of_mem _ _ hMfix
  have hchain : chainLeB (rowLeB nk) (merge_data_frames nk rA 0 A B) = true := by
    show chainLeB (rowLeB nk) (sortByB (rowLeB nk) _) = true
    exact chain_sortByB _ (fun p q => rowLeB_total nk p q) _
  have hcov : ∀ b ∈ B.map normRow, ∃ m ∈ merge_data_frames nk rA 0 A B,
      m.cells.take nk = b.cells.take nk := by
    intro b' hb'
    obtain ⟨m, hm, hk⟩ := outerJoin_covers_right nk rA 0 (A.map normRow)
      (B.map normRow) b' hb' hwA2 (le_of_eq (hwB2 b' hb').symm)
    refine ⟨m, ?_, hk⟩
    unfold merge_data_frames
    rw [mem_sortByB]
    exact hm
  have hfill : ∀ m ∈ merge_data_frames nk rA 0 A B, ∀ b' ∈ B.map normRow,
      b'.cells.take nk = m.cells.take nk →
      fillDownloads m.downloads b'.downloads = m.downloads := by
    intro m hm b' hb' hk
    have hmd := merge_downloads nk rA 0 A B hUA hUB hwA hwBle m hm
    have hfindB : findKey nk (B.map normRow) (m.cells.take nk) = some b' := by
      rw [← hk]
      exact findKey_eq_some_of_mem nk _ b' hUB hb'
    rw [hfindB] at hmd
    cases hfindA : findKey nk (A.map normRow) (m.cells.take nk) with
    | some a =>
      rw [hfindA] at hmd
      simp only [Option.some_bind] at hmd
      have haA : a ∈ A.map normRow := List.mem_of_find?_eq_some hfindA
      have hak : a.cells.take nk = m.cells.take nk := by
        have := List.find?_some hfindA
        simpa using this
      have had : ¬ a.downloads = none := hdom a haA b' hb' (by rw [hak, ← hk])
      cases hadv : a.downloads with
      | none => exact absurd hadv had
      | some v =>
        rw [hadv] at hmd
        simp only [fillDownloads] at hmd
        rw [hmd]
        rfl
    | none =>
      rw [hfindA] at hmd
      simp only [Option.none_bind, Option.some_bind] at hmd
      simp only [fillDownloads] at hmd
      rw [hmd, fillDownloads_self]
  show sortByB (rowLeB nk) (outerJoin nk rA 0
      ((merge_data_frames nk rA 0 A B).map normRow) (B.map normRow)) =
    merge_data_frames nk rA 0 A B
  rw [hMmap]
  rw [outerJoin_self nk rA (merge_data_frames nk rA 0 A B) (B.map normRow)
    hUB hwB2 hcov hfill]
  exact sortByB_eq_of_chain _ _ hchain

/-- C10 witness: idempotence instantiated on concrete one-row tables where
the fresh table dominates the stored one. -/
theorem merge_idempotent_when_dominant_witness :
    merge_data_frames 2 0 0
      (merge_data_frames 2 0 0
        [MRow.mk [Value.str "2022-01-01", Value.str "3.7"] (some 7)]
        [MRow.mk [Value.str "2022-01-01", Value.str "3.7"] (some 5)])
      [MRow.mk [Value.str "2022-01-01", Value.str "3.7"] (some 5)] =
    merge_data_frames 2 0 0
      [MRow.mk [Value.str "2022-01-01", Value.str "3.7"] (some 7)]
      [MRow.mk [Value.str "2022-01-01", Value.str "3.7"] (some 5)] :=
  merge_idempotent_when_dominant 2 0
    [MRow.mk [Value.str "2022-01-01", Value.str "3.7"] (some 7)]
    [MRow.mk [Value.str "2022-01-01", Value.str "3.7"] (some 5)]
    (by decide) (by decide) (by decide) (by decide) (by decide)

/-! ## Claims C6 and C7 (the "no data" partition and the writer guard) -/

/-- C6 counterexample: under the default configuration
(`merge_stored_data = True`, `fill_no_data = True`), a partition whose
fetch returned "no data" and that has no stored file is NOT silently
skipped — gap-fill manufactures a placeholder table and, with an output
directory set, `_write_csv` writes it; moreover the writer's no-op guard
is only `stat is not None`, so an empty-but-present table is still
written (a header-only file), contradicting "no-op whenever the table is
empty or absent". -/
theorem no_data_partition_written_under_defaults :
    (processPartition true true false "pkg" none none ["2022-01-01"]).isSome = true ∧
    writeCsvWrites true
      (processPartition true true false "pkg" none none ["2022-01-01"]) = true ∧
    writeCsvWrites true (some ([] : List MRow)) = true :=
  ⟨by decide, by decide, by decide⟩

/-- C6 as amended: the silent skip happens exactly when gap-fill is
disabled: with `fill_no_data = False`, a "no data" fetch with no stored
table yields no table and the writer writes nothing; the writer is a
no-op when the table is absent (`None`) or no output directory is set. -/
theorem no_data_partition_skipped_without_fill (ms wp : Bool) (pkg : String)
    (days : List String) (outdirSet : Bool) :
    processPartition ms false wp pkg none none days = none ∧
    writeCsvWrites outdirSet none = false ∧
    writeCsvWrites false (some ([] : List MRow)) = false := by
  refine ⟨?_, by simp [writeCsvWrites], by simp [writeCsvWrites]⟩
  unfold processPartition
  cases ms <;> simp [concat_with_stored_pypistat]

/-- C7: with `fill_no_data` enabled the per-partition pipeline always
produces a table, never `None` (first conjunct); when both the fetched and
the stored data are absent, that table is exactly one zero-download
placeholder row per calendar day of the sub-range (second conjunct its
shape, third its downloads, fourth uniqueness per day), so with an output
directory set the partition file is written rather than skipped (last
conjunct). -/
theorem gap_fill_writes_no_data_partition (ms wp : Bool) (pkg : String)
    (days : List String) (outdirSet : Bool) (hnd : days.Nodup) :
    (∀ fetched stored : Option (List MRow),
      (processPartition ms true wp pkg fetched stored days).isSome = true) ∧
    processPartition ms true wp pkg none none days =
      some (days.map fun d => MRow.mk
        ((if wp then [Value.str d, Value.str pkg] else [Value.str d]) ++
          [Value.str "nan"]) (some 0)) ∧
    (∀ r ∈ days.map fun d => MRow.mk
        ((if wp then [Value.str d, Value.str pkg] else [Value.str d]) ++
          [Value.str "nan"]) (some 0), r.downloads = some 0) ∧
    (∀ d ∈ days, ((days.map fun d2 => MRow.mk
        ((if wp then [Value.str d2, Value.str pkg] else [Value.str d2]) ++
          [Value.str "nan"]) (some 0)).map rowDate).count (Value.str d) = 1) ∧
    writeCsvWrites outdirSet
      (processPartition ms true wp pkg none none days) = outdirSet := by
  have hcc : concat_with_no_data wp pkg none days =
      days.map fun d => MRow.mk
        ((if wp then [Value.str d, Value.str pkg] else [Value.str d]) ++
          [Value.str "nan"]) (some 0) := by
    unfold concat_with_no_data set_data_frame_columns
    rw [List.map_map]
    refine List.map_congr_left ?_
    intro d _
    cases wp <;> rfl
  have hpp : processPartition ms true wp pkg none none days =
      some (concat_with_no_data wp pkg none days) := by
    cases ms <;> simp [processPartition, concat_with_stored_pypistat]
  have hrd : ∀ d2 : String, rowDate (MRow.mk
      ((if wp then [Value.str d2, Value.str pkg] else [Value.str d2]) ++
        [Value.str "nan"]) (some 0)) = Value.str d2 := by
    intro d2
    cases wp <;> rfl
  refine ⟨?_, ?_, ?_, ?_, ?_⟩
  · intro fetched stored
    cases ms <;> simp [processPartition]
  · rw [hpp, hcc]
  · intro r hr
    obtain ⟨d, _, rfl⟩ := List.mem_map.mp hr
    rfl
  · intro d hd
    have hmaps : ((days.map fun d2 => MRow.mk
        ((if wp then [Value.str d2, Value.str pkg] else [Value.str d2]) ++
          [Value.str "nan"]) (some 0)).map rowDate) = days.map Value.str := by
      rw [List.map_map]
      exact List.map_congr_left fun d2 _ => hrd d2
    rw [hmaps]
    rw [List.count_map_of_injective days Value.str
      (fun x y h => by injection h) d]
    exact List.count_eq_one_of_mem hnd hd
  · rw [hpp]
    simp [writeCsvWrites]

/-! ## Row-filter lemmas: deduplication and the zero-row drop -/

theorem mem_dropDuplicatesAux (t : List MRow) (seen : List MRow) (x : MRow) :
    x ∈ dropDuplicatesAux seen t ↔ x ∈ t ∧ x ∉ seen := by
  induction t generalizing seen with
  | nil => simp [dropDuplicatesAux]
  | cons r t ih =>
    unfold dropDuplicatesAux
    split_ifs with h
    · rw [ih]
      simp only [List.mem_cons]
      constructor
      · rintro ⟨hx, hns⟩
        exact ⟨Or.inr hx, hns⟩
      · rintro ⟨hx | hx, hns⟩
        · exact absurd (hx ▸ h) hns
        · exact ⟨hx, hns⟩
    · simp only [List.mem_cons, ih, List.mem_cons, not_or]
      constructor
      · rintro (rfl | ⟨hx, hxr, hns⟩)
        · exact ⟨Or.inl rfl, h⟩
        · exact ⟨Or.inr hx, hns⟩
      · rintro ⟨rfl | hx, hns⟩
        · exact Or.inl rfl
        · by_cases hxr : x = r
          · exact Or.inl hxr
          · exact Or.inr ⟨hx, hxr, hns⟩

theorem nodup_dropDuplicatesAux (t : List MRow) (seen : List MRow) :
    (dropDuplicatesAux seen t).Nodup := by
  induction t generalizing seen with
  | nil => exact List.nodup_nil
  | cons r t ih =>
    unfold dropDuplicatesAux
    split_ifs with h
    · exact ih seen
    · rw [List.nodup_cons]
      refine ⟨?_, ih (r :: seen)⟩
      rw [mem_dropDuplicatesAux]
      rintro ⟨_, hns⟩
      exact hns (by simp)

theorem dropDuplicatesAux_eq_self (t : List MRow) (seen : List MRow)
    (hnd : t.Nodup) (hdis : ∀ x ∈ t, x ∉ seen) :
    dropDuplicatesAux seen t = t := by
  induction t generalizing seen with
  | nil => rfl
  | cons r t ih =>
    unfold dropDuplicatesAux
    rw [if_neg (hdis r (by simp))]
    congr 1
    refine ih (r :: seen) (List.nodup_cons.mp hnd).2 ?_
    intro x hx
    simp only [List.mem_cons, not_or]
    exact ⟨fun he => (List.nodup_cons.mp hnd).1 (he ▸ hx), hdis x (by simp [hx])⟩

theorem mem_dropDuplicates (t : List MRow) (x : MRow) :
    x ∈ dropDuplicates t ↔ x ∈ t := by
  unfold dropDuplicates
  rw [mem_dropDuplicatesAux]
  simp

theorem nodup_dropDuplicates (t : List MRow) : (dropDuplicates t).Nodup :=
  nodup_dropDuplicatesAux t []

theorem dropDuplicates_eq_self (t : List MRow) (h : t.Nodup) :
    dropDuplicates t = t :=
  dropDuplicatesAux_eq_self t [] h (by simp)

theorem valueToStr_idem (v : Value) : valueToStr (valueToStr v) = valueToStr v := by
  cases v <;> rfl

/-- Rows that went through `_set_data_frame_columns` are fixed by a second
coercion. -/
theorem set_cols_fixed (t : List MRow) (r : MRow)
    (hr : r ∈ set_data_frame_columns t) :
    MRow.mk (r.cells.map valueToStr) r.downloads = r := by
  obtain ⟨r0, _, rfl⟩ := List.mem_map.mp hr
  show MRow.mk ((r0.cells.map valueToStr).map valueToStr) _ = _
  rw [List.map_map]
  congr 1
  exact List.map_congr_left fun v _ => valueToStr_idem v

/-- After the filter, no zero-`downloads` row shares its date with a row
whose `downloads` differs from zero. -/
theorem filter_zero_not_shadowed (t : List MRow) :
    ∀ r ∈ filter_data_frame_rows t, r.downloads = some 0 →
    ∀ r2 ∈ filter_data_frame_rows t,
      ¬ (¬ r2.downloads = some 0 ∧ rowDate r2 = rowDate r) := by
  intro r hr hz r2 hr2 hcontra
  obtain ⟨h2nz, h2date⟩ := hcontra
  unfold filter_data_frame_rows at hr hr2
  obtain ⟨hrt1, hpr⟩ := List.mem_filter.mp hr
  obtain ⟨hr2t1, _⟩ := List.mem_filter.mp hr2
  simp only [Bool.not_eq_true', Bool.and_eq_false_iff, beq_eq_false_iff_ne,
    ne_eq, List.any_eq_false, Bool.and_eq_true, Bool.not_eq_true',
    beq_iff_eq, not_and] at hpr
  rcases hpr with h | h
  · exact h hz
  · exact h r2 hr2t1 (by simpa using h2nz) h2date

/-- Any date present in a table survives finalization (on some row). -/
theorem filter_preserves_date (t : List MRow) (r : MRow) (hr : r ∈ t)
    (hne : ¬ r.cells = []) :
    ∃ r2 ∈ filter_data_frame_rows t,
      rowDate r2 = valueToStr (rowDate r) := by
  have hrc : MRow.mk (r.cells.map valueToStr) r.downloads ∈
      set_data_frame_columns t := List.mem_map_of_mem _ hr
  have hdate : rowDate (MRow.mk (r.cells.map valueToStr) r.downloads) =
      valueToStr (rowDate r) := by
    cases hc : r.cells with
    | nil => exact absurd hc hne
    | cons c cs => simp [rowDate, hc]
  have hrS : MRow.mk (r.cells.map valueToStr) r.downloads ∈
      dropDuplicates (set_data_frame_columns t) :=
    (mem_dropDuplicates _ _).mpr hrc
  by_cases hex : ∃ rz ∈ dropDuplicates (set_data_frame_columns t),
      ¬ rz.downloads = some 0 ∧ rowDate rz = valueToStr (rowDate r)
  · obtain ⟨rz, hrz, hnz, hdz⟩ := hex
    refine ⟨rz, ?_, hdz⟩
    unfold filter_data_frame_rows
    refine List.mem_filter.mpr ⟨hrz, ?_⟩
    simp [hnz]
  · refine ⟨_, ?_, hdate⟩
    unfold filter_data_frame_rows
    refine List.mem_filter.mpr ⟨hrS, ?_⟩
    by_cases hz : r.downloads = some 0
    · have hany : ((dropDuplicates (set_data_frame_columns t)).any fun r2 =>
          !(r2.downloads == some 0) && rowDate r2 ==
            rowDate (MRow.mk (r.cells.map valueToStr) r.downloads)) = false := by
        rw [List.any_eq_false]
        intro r2 hr2
        simp only [Bool.and_eq_true, Bool.not_eq_true', beq_eq_false_iff_ne,
          ne_eq, beq_iff_eq, not_and]
        intro hnz hd2
        exact hex ⟨r2, hr2, hnz, by rw [hd2, hdate]⟩
      simp [hany]
    · simp [hz]

/-! ## Claim C9 (idempotence of the finalizer) -/

/-- C9: `_filter_data_frame_rows` is idempotent: the column coercion fixes
already-coerced rows, deduplication fixes duplicate-free tables, and after
one pass every surviving zero row has no differently-downloaded row on its
date, so the second zero-row drop removes nothing. -/
theorem finalize_idempotent (t : List MRow) :
    filter_data_frame_rows (filter_data_frame_rows t) =
      filter_data_frame_rows t := by
  have hFfix : ∀ r ∈ filter_data_frame_rows t,
      MRow.mk (r.cells.map valueToStr) r.downloads = r := by
    intro r hr
    unfold filter_data_frame_rows at hr
    have hmem := (List.mem_filter.mp hr).1
    rw [mem_dropDuplicates] at hmem
    exact set_cols_fixed t r hmem
  have hset : set_data_frame_columns (filter_data_frame_rows t) =
      filter_data_frame_rows t := map_id_of_mem _ _ hFfix
  have hnodupF : (filter_data_frame_rows t).Nodup := by
    unfold filter_data_frame_rows
    exact (nodup_dropDuplicates _).filter _
  show (dropDuplicates (set_data_frame_columns (filter_data_frame_rows t))).filter _ =
    filter_data_frame_rows t
  rw [hset, dropDuplicates_eq_self _ hnodupF]
  rw [List.filter_eq_self]
  intro r hr
  by_cases hz : r.downloads = some 0
  · have hno := filter_zero_not_shadowed t r hr hz
    have hany : ((filter_data_frame_rows t).any fun r2 =>
        !(r2.downloads == some 0) && rowDate r2 == rowDate r) = false := by
      rw [List.any_eq_false]
      intro r2 hr2
      simp only [Bool.and_eq_true, Bool.not_eq_true', beq_eq_false_iff_ne,
        ne_eq, beq_iff_eq, not_and]
      intro hnz hd2
      exact hno r2 hr2 ⟨hnz, hd2⟩
    simp [hany]
  · simp [hz]

/-! ## Claim C3 (gap-fill day coverage through finalization) -/

theorem getD_zero_append (x y : List Value) (hx : ¬ x = []) :
    (x ++ y).getD 0 Value.nan = x.getD 0 Value.nan := by
  cases x with
  | nil => exact absurd rfl hx
  | cons c cs => rfl

theorem getD_zero_take (l : List Value) (nk : Nat) (h : 1 ≤ nk) :
    (l.take nk).getD 0 Value.nan = l.getD 0 Value.nan := by
  cases l with
  | nil => simp
  | cons c cs =>
    cases nk with
    | zero => omega
    | succ n => rfl

theorem replaceSentinels_str (d : String) (h1 : ¬ d = "null") (h2 : ¬ d = "nan") :
    replaceSentinels (Value.str d) = Value.str d := by
  unfold replaceSentinels
  rw [if_neg]
  simp [h1, h2]

/-- The outer join has a row carrying the date of every full-width
right-table row (the placeholder day rows). -/
theorem outerJoin_day_row (nk rA rB : Nat) (A B : List MRow) (b : MRow)
    (hb : b ∈ B) (hlen : b.cells.length = nk) (h1 : 1 ≤ nk) :
    ∃ r ∈ outerJoin nk rA rB A B,
      rowDate r = rowDate b ∧ ¬ r.cells = [] := by
  by_cases hex : ∃ a ∈ A, a.cells.take nk = b.cells.take nk
  · obtain ⟨a, ha, hk⟩ := hex
    have hwa : nk ≤ a.cells.length := by
      have h3 : (a.cells.take nk).length = (b.cells.take nk).length := by rw [hk]
      rw [List.length_take, List.length_take] at h3
      omega
    have hane : ¬ a.cells = [] := by
      intro hc
      rw [hc] at hwa
      simp at hwa
      omega
    refine ⟨_, mem_outerJoin_matched nk rA rB A B a b ha hb hk.symm, ?_, ?_⟩
    · show (a.cells ++ b.cells.drop nk).getD 0 Value.nan = _
      rw [getD_zero_append _ _ hane]
      rw [← getD_zero_take a.cells nk h1, hk, getD_zero_take b.cells nk h1]
      rfl
    · intro hc
      have hc2 := List.append_eq_nil.mp hc
      exact hane hc2.1
  · push_neg at hex
    have htne : ¬ b.cells.take nk = [] := by
      intro hc
      have hlt := congrArg List.length hc
      rw [List.length_take, List.length_nil, hlen] at hlt
      omega
    refine ⟨_, mem_outerJoin_right nk rA rB A B b hb hex, ?_, ?_⟩
    · show ((b.cells.take nk ++ List.replicate rA Value.nan) ++
        b.cells.drop nk).getD 0 Value.nan = _
      rw [getD_zero_append _ _ (fun hc => htne (List.append_eq_nil.mp hc).1)]
      rw [getD_zero_append _ _ htne]
      rw [getD_zero_take b.cells nk h1]
      rfl
    · intro hc
      exact htne (List.append_eq_nil.mp (List.append_eq_nil.mp hc).1).1

/-- Gap-fill leaves a row dated `d` for every day `d` of the sub-range
(`strftime` day strings are never the literal sentinels). -/
theorem concat_no_data_has_day (wp : Bool) (pkg : String)
    (stat : Option (List MRow)) (days : List String) (d : String)
    (hd : d ∈ days) (h1 : ¬ d = "null") (h2 : ¬ d = "nan") :
    ∃ r ∈ concat_with_no_data wp pkg stat days,
      rowDate r = Value.str d ∧ ¬ r.cells = [] := by
  cases stat with
  | none =>
    refine ⟨MRow.mk (((if wp then [Value.str d, Value.str pkg]
        else [Value.str d]) ++ [Value.nan]).map valueToStr) (some 0), ?_, ?_, ?_⟩
    · unfold concat_with_no_data set_data_frame_columns
      exact List.mem_map_of_mem _ (List.mem_map_of_mem _ hd)
    · cases wp <;> rfl
    · cases wp <;> simp
  | some t =>
    have hbmem : normRow (MRow.mk
        (if wp then [Value.str d, Value.str pkg] else [Value.str d]) (some 0)) ∈
        (days.map fun d2 => MRow.mk
          (if wp then [Value.str d2, Value.str pkg] else [Value.str d2])
          (some 0)).map normRow :=
      List.mem_map_of_mem _ (List.mem_map_of_mem _ hd)
    have hlen : (normRow (MRow.mk
        (if wp then [Value.str d, Value.str pkg] else [Value.str d])
        (some 0))).cells.length = (if wp then 2 else 1) := by
      cases wp <;> simp [normRow]
    have h1nk : 1 ≤ (if wp then 2 else 1) := by
      cases wp <;> simp
    obtain ⟨r, hr, hrd, hrne⟩ := outerJoin_day_row (if wp then 2 else 1) 1 0
      (t.map normRow) _ _ hbmem hlen h1nk
    refine ⟨r, ?_, ?_, hrne⟩
    · show r ∈ merge_data_frames (if wp then 2 else 1) 1 0 t _
      unfold merge_data_frames
      rw [mem_sortByB]
      exact hr
    · rw [hrd]
      show (normRow (MRow.mk
        (if wp then [Value.str d, Value.str pkg] else [Value.str d])
        (some 0))).cells.getD 0 Value.nan = Value.str d
      cases wp <;> simp [normRow, replaceSentinels_str d h1 h2]

/-- C3: for every day of a sub-range, the finalized table (gap-fill with
`fill_no_data` followed by `_filter_data_frame_rows`) contains at least
one row dated that day — a real row or a zero placeholder — and after
finalization no zero-download row shares its date with a row whose
downloads differ from zero.  (`strftime` day strings are never the literal
sentinels `"null"`/`"nan"`, the two hypotheses.) -/
theorem gap_fill_then_finalize_covers_days (wp : Bool) (pkg : String)
    (stat : Option (List MRow)) (days : List String) (d : String)
    (hd : d ∈ days) (h1 : ¬ d = "null") (h2 : ¬ d = "nan") :
    (∃ r ∈ filter_data_frame_rows (concat_with_no_data wp pkg stat days),
      rowDate r = Value.str d) ∧
    (∀ r ∈ filter_data_frame_rows (concat_with_no_data wp pkg stat days),
      r.downloads = some 0 →
      ∀ r2 ∈ filter_data_frame_rows (concat_with_no_data wp pkg stat days),
        ¬ (¬ r2.downloads = some 0 ∧ rowDate r2 = rowDate r)) := by
  constructor
  · obtain ⟨r, hrt, hrd, hrne⟩ := concat_no_data_has_day wp pkg stat days d hd h1 h2
    obtain ⟨r2, hr2, hd2⟩ := filter_preserves_date _ r hrt hrne
    refine ⟨r2, hr2, ?_⟩
    rw [hd2, hrd]
    rfl
  · exact filter_zero_not_shadowed _

/-- C3 witness: a two-day sub-range with one real row; the finalized table
has a row for the uncovered day 2022-01-02. -/
theorem gap_fill_then_finalize_covers_days_witness :
    (∃ r ∈ filter_data_frame_rows (concat_with_no_data false "x"
        (some [MRow.mk [Value.str "2022-01-01", Value.str "3.7"] (some 5)])
        ["2022-01-01", "2022-01-02"]),
      rowDate r = Value.str "2022-01-02") ∧
    (∀ r ∈ filter_data_frame_rows (concat_with_no_data false "x"
        (some [MRow.mk [Value.str "2022-01-01", Value.str "3.7"] (some 5)])
        ["2022-01-01", "2022-01-02"]),
      r.downloads = some 0 →
      ∀ r2 ∈ filter_data_frame_rows (concat_with_no_data false "x"
        (some [MRow.mk [Value.str "2022-01-01", Value.str "3.7"] (some 5)])
        ["2022-01-01", "2022-01-02"]),
        ¬ (¬ r2.downloads = some 0 ∧ rowDate r2 = rowDate r)) :=
  gap_fill_then_finalize_covers_days false "x"
    (some [MRow.mk [Value.str "2022-01-01", Value.str "3.7"] (some 5)])
    ["2022-01-01", "2022-01-02"] "2022-01-02"
    (by decide) (by decide) (by decide)

/-- C7 witness: the specification's three-day scenario 2022-01-01 ..
2022-01-03 with no data at all: three zero-download rows, one per day,
and the file is written. -/
theorem gap_fill_writes_no_data_partition_witness :
    (∀ fetched stored : Option (List MRow),
      (processPartition true true false "x" fetched stored
        ["2022-01-01", "2022-01-02", "2022-01-03"]).isSome = true) ∧
    processPartition true true false "x" none none
        ["2022-01-01", "2022-01-02", "2022-01-03"] =
      some (["2022-01-01", "2022-01-02", "2022-01-03"].map fun d => MRow.mk
        ((if false then [Value.str d, Value.str "x"] else [Value.str d]) ++
          [Value.str "nan"]) (some 0)) ∧
    (∀ r ∈ ["2022-01-01", "2022-01-02", "2022-01-03"].map fun d => MRow.mk
        ((if false then [Value.str d, Value.str "x"] else [Value.str d]) ++
          [Value.str "nan"]) (some 0), r.downloads = some 0) ∧
    (∀ d ∈ ["2022-01-01", "2022-01-02", "2022-01-03"],
      ((["2022-01-01", "2022-01-02", "2022-01-03"].map fun d2 => MRow.mk
        ((if false then [Value.str d2, Value.str "x"] else [Value.str d2]) ++
          [Value.str "nan"]) (some 0)).map rowDate).count (Value.str d) = 1) ∧
    writeCsvWrites true
      (processPartition true true false "x" none none
        ["2022-01-01", "2022-01-02", "2022-01-03"]) = true :=
  gap_fill_writes_no_data_partition true false "x"
    ["2022-01-01", "2022-01-02", "2022-01-03"] true (by decide)

end WritePypiStat
